import Mathlib

/-!
Verification of `jacoblee93/langsmith-client-testing` against its
natural-language specification.

The repository consists of a test harness (`src/index.ts`) that drives the
LangSmith SDK's auto-batching ingestion engine against a mocked, always-failing
collector endpoint.  The harness code is embedded directly from the source.
The ingestion engine itself (Record Buffer, Batcher, Drain Coordinator,
Backpressure Controller, Transport Adapter) is not part of `src/`; it is
modelled from the specification's component contracts (spec §2–§5), as noted
in the doc comments of the corresponding definitions.
-/

namespace LangsmithHarness

/-- Substring containment on strings, modelling JavaScript
`String.prototype.includes` as used by `url.includes("api.smith.langchain")`
in `src/index.ts` line 22: the pattern's character sequence occurs
contiguously inside the subject's character sequence. -/
def strIncludes (s pat : String) : Bool :=
  decide (pat.data <:+: s.data)

/-- The observable parts of the `Response` object constructed by the mocked
`global.fetch` in `src/index.ts` lines 24–28. -/
structure MockResponse where
  status : Nat
  statusText : String
  body : String
  deriving DecidableEq

/-- The mocked `global.fetch` installed at `src/index.ts` lines 19–32:
requests whose URL contains `"api.smith.langchain"` receive a response with
HTTP status 429, status text `"Bad Gateway"` and JSON body
`{"error":"Bad Gateway"}`; every other URL makes the mock throw
`Error("Should never happen")`. -/
def fetchMock (url : String) : Except String MockResponse :=
  if strIncludes url "api.smith.langchain" then
    Except.ok ⟨429, "Bad Gateway", "\x7b\"error\":\"Bad Gateway\"\x7d"⟩
  else
    Except.error "Should never happen"

/-- Modelled from the spec: §1 treats "persistent 5xx/429 responses" from the
collector as the retryable-failure class.  The classifier itself is not in
`src/`; this follows the spec's words. -/
def isRetryableStatus (status : Nat) : Bool :=
  status == 429 || (500 ≤ status && status < 600)

/-- The fixed alphabet used by `generateRandomText` in `src/index.ts`
line 107. -/
def randomTextChars : List Char :=
  "ABCDEFGHIJKLMNOPQRSTUVWXYZabcdefghijklmnopqrstuvwxyz0123456789 .,!?".data

/-- `generateRandomText` from `src/index.ts` lines 106–113: starting from the
empty string it appends, `length` times, the character of the fixed alphabet
selected by `Math.floor(Math.random() * chars.length)`.  The stream of random
draws is abstracted as `f : Nat → Fin randomTextChars.length` (each draw of
`Math.random()` lies in `[0, 1)`, so each floored index is a valid position
of the 67-character alphabet). -/
def generateRandomText (len : Nat) (f : Nat → Fin randomTextChars.length) : String :=
  (List.range len).foldl (fun acc i => acc.push (randomTextChars.get (f i))) ""

/-- The final verdict of `replicateMemoryLeak` in `src/index.ts`
lines 200–226: with the initial and final `heapUsed` samples it prints the
leak warning exactly when the heap grew by more than `50 * 1024 * 1024`
bytes, and the normal-growth message otherwise.  The trace count and queue
size available to the harness are taken as arguments to record that the
verdict ignores them. -/
def finalVerdict (initialHeapUsed finalHeapUsed : Int)
    (traceCount queueSize : Nat) : String :=
  if finalHeapUsed - initialHeapUsed > 50 * 1024 * 1024 then
    "MEMORY LEAK DETECTED: Heap grew by more than 50MB"
  else
    "Memory growth appears normal"

/-- Error class raised when a `createRun` promise rejects (the transport
rejection a producer would otherwise observe). -/
def TransportError : Type := String

/-- The handler attached at `src/index.ts` lines 183–186:
`runPromise.catch((error) => \x7b ... \x7d)` with an empty body.  A rejected
promise settles through the handler, which discards the error, so the
resulting promise always fulfils; a fulfilled promise passes through. -/
def handledRunPromise (outcome : Except TransportError Unit) : Except TransportError Unit :=
  match outcome with
  | Except.ok u => Except.ok u
  | Except.error _ => Except.ok ()

end LangsmithHarness

namespace IngestEngine

/-- Modelled from the spec: the recognized `queueFullPolicy` options (§6):
`reject`, `dropOldest`, `block`.  The engine itself is not under `src/`;
only the harness that drives it is. -/
inductive QueueFullPolicy
  | reject
  | dropOldest
  | block
  deriving DecidableEq

/-- Modelled from the spec: the recognized configuration options (§6). -/
structure Config where
  maxQueueBytes : Nat
  maxBatchItems : Nat
  maxBatchBytes : Nat
  maxDrainConcurrency : Nat
  minBatchFlushIntervalMs : Nat
  maxRetriesPerRecord : Nat
  backoffBaseMs : Nat
  backoffMaxMs : Nat
  queueFullPolicy : QueueFullPolicy
  deriving DecidableEq

/-- Modelled from the spec: a Record (§3) — an immutable value with an
identifier (also standing for the logical ordering key), a size-in-bytes
estimate computed at enqueue time, and the per-Record retry count that
§4.3 bounds by `maxRetriesPerRecord`.  The payload blob is opaque and
omitted. -/
structure Record where
  id : Nat
  size : Nat
  retries : Nat
  deriving DecidableEq

/-- Total byte size of a list of records. -/
def listBytes (l : List Record) : Nat :=
  (l.map Record.size).sum

/-- The identifiers of a list of records, in order. -/
def idsOf (l : List Record) : List Nat :=
  l.map Record.id

/-- Modelled from the spec: the engine state the claims quantify over —
the Record Buffer's ordered contents, the in-flight Batches held by the
Drain Coordinator (§2, §4.3), and the next fresh Record identifier. -/
structure EngineState where
  buffer : List Record
  inFlight : List (List Record)
  nextId : Nat
  deriving DecidableEq

/-- Bytes of all in-flight batches. -/
def inFlightBytes (s : EngineState) : Nat :=
  (s.inFlight.map listBytes).sum

/-- The spec §3 invariant quantity: bytes resident in the Record Buffer
plus bytes of all in-flight Batches. -/
def totalBytes (s : EngineState) : Nat :=
  listBytes s.buffer + inFlightBytes s

/-- All record identifiers present anywhere in the engine state. -/
def allIds (s : EngineState) : List Nat :=
  idsOf s.buffer ++ (s.inFlight.map idsOf).flatten

/-- All records present anywhere in the engine state. -/
def allRecords (s : EngineState) : List Record :=
  s.buffer ++ s.inFlight.flatten

/-- Result of an `enqueue` call (§4.1, §6): accepted, rejected with
`QueueFull`, or blocked until capacity frees (under the `block` policy). -/
inductive EnqueueResult
  | accepted
  | rejected
  | blocked
  deriving DecidableEq

/-- Modelled from the spec: §4.5 `dropOldest` displacement — remove records
from the front (oldest first) until `fixed + bytes + need` fits under `cap`,
or the buffer is exhausted. -/
def dropOldestUntilFits (cap fixed need : Nat) : List Record → List Record
  | [] => []
  | r :: rest =>
    if fixed + listBytes (r :: rest) + need ≤ cap then r :: rest
    else dropOldestUntilFits cap fixed need rest

/-- Modelled from the spec: `enqueue(record)` (§4.1) — capacity is enforced
synchronously at enqueue time against the hard cap `maxQueueBytes` counting
buffered plus in-flight bytes (§3); on overflow the configured policy either
rejects, blocks, or displaces oldest records to make room. -/
def enqueueOp (cfg : Config) (sz : Nat) (s : EngineState) : EngineState × EnqueueResult :=
  if totalBytes s + sz ≤ cfg.maxQueueBytes then
    ({ s with buffer := s.buffer ++ [⟨s.nextId, sz, 0⟩], nextId := s.nextId + 1 },
      EnqueueResult.accepted)
  else
    match cfg.queueFullPolicy with
    | QueueFullPolicy.reject => (s, EnqueueResult.rejected)
    | QueueFullPolicy.block => (s, EnqueueResult.blocked)
    | QueueFullPolicy.dropOldest =>
      if inFlightBytes s +
          listBytes (dropOldestUntilFits cfg.maxQueueBytes (inFlightBytes s) sz s.buffer) +
          sz ≤ cfg.maxQueueBytes then
        ({ s with
            buffer := dropOldestUntilFits cfg.maxQueueBytes (inFlightBytes s) sz s.buffer
              ++ [⟨s.nextId, sz, 0⟩],
            nextId := s.nextId + 1 }, EnqueueResult.accepted)
      else (s, EnqueueResult.rejected)

/-- Modelled from the spec: `takeUpTo(maxCount, maxBytes)` (§4.1) — removes
and returns the longest prefix of the buffer holding at most `maxCount`
records and at most `maxBytes` bytes, preserving insertion (FIFO) order;
returns the taken prefix and the remaining buffer. -/
def takeUpTo : Nat → Nat → List Record → List Record × List Record
  | 0, _, l => ([], l)
  | _ + 1, _, [] => ([], [])
  | n + 1, maxB, r :: rest =>
    if r.size ≤ maxB then
      let p := takeUpTo n (maxB - r.size) rest
      (r :: p.1, p.2)
    else ([], r :: rest)

/-- Modelled from the spec: `SendOutcome` (§3), the tagged result produced
by the Transport Adapter per batch. -/
inductive SendOutcome
  | success
  | retryableFailure (reason : String)
  | fatalFailure (reason : String)
  deriving DecidableEq

/-- Modelled from the spec: one drain dispatch (§4.2–§4.3) — if fewer than
`maxDrainConcurrency` batches are in flight, slice a batch from the buffer
with `takeUpTo` and dispatch it; otherwise the invocation is a no-op (it
never re-scans records an in-flight drain already claimed). -/
def drainOp (cfg : Config) (s : EngineState) : EngineState :=
  if s.inFlight.length < cfg.maxDrainConcurrency then
    if (takeUpTo cfg.maxBatchItems cfg.maxBatchBytes s.buffer).1 = [] then s
    else
      { s with
        buffer := (takeUpTo cfg.maxBatchItems cfg.maxBatchBytes s.buffer).2,
        inFlight := s.inFlight ++ [(takeUpTo cfg.maxBatchItems cfg.maxBatchBytes s.buffer).1] }
  else s

/-- Modelled from the spec: §4.3 requeue bookkeeping — bump each record's
retry count and keep only records that have not exhausted
`maxRetriesPerRecord`. -/
def bumpRetries (cfg : Config) (b : List Record) : List Record :=
  (b.filter (fun r => r.retries + 1 ≤ cfg.maxRetriesPerRecord)).map
    (fun r => { r with retries := r.retries + 1 })

/-- Modelled from the spec: resolution of the `i`-th in-flight batch with a
`SendOutcome` (§4.3).  On `Success` and `FatalFailure` the batch's records
are discarded; on `RetryableFailure` the non-exhausted records are returned
to the front of the buffer in order, and if re-insertion would exceed the
byte cap, oldest excess records are dropped. -/
def completeOp (cfg : Config) (i : Nat) (out : SendOutcome) (s : EngineState) : EngineState :=
  match s.inFlight[i]? with
  | none => s
  | some b =>
    match out with
    | SendOutcome.success => { s with inFlight := s.inFlight.eraseIdx i }
    | SendOutcome.fatalFailure _ => { s with inFlight := s.inFlight.eraseIdx i }
    | SendOutcome.retryableFailure _ =>
      { s with
        inFlight := s.inFlight.eraseIdx i,
        buffer := dropOldestUntilFits cfg.maxQueueBytes
          ((s.inFlight.eraseIdx i).map listBytes).sum 0
          (bumpRetries cfg b ++ s.buffer) }

/-- The engine's transition relation: a producer enqueue of some payload
size, a drain dispatch, or the resolution of an in-flight batch. -/
inductive Step (cfg : Config) : EngineState → EngineState → Prop
  | enqueue (sz : Nat) (s : EngineState) : Step cfg s (enqueueOp cfg sz s).1
  | drain (s : EngineState) : Step cfg s (drainOp cfg s)
  | complete (i : Nat) (out : SendOutcome) (s : EngineState) :
      Step cfg s (completeOp cfg i out s)

/-- The engine's start state: empty buffer, nothing in flight. -/
def initState : EngineState := ⟨[], [], 0⟩

/-- States reachable from the start state by engine steps. -/
inductive Reachable (cfg : Config) : EngineState → Prop
  | init : Reachable cfg initState
  | step {s s' : EngineState} : Reachable cfg s → Step cfg s s' → Reachable cfg s'

/-- An operation on a single Record Buffer instance: a producer enqueue of a
given payload size, or a `takeUpTo(maxCount, maxBytes)` slice forming the
next dispatched batch. -/
inductive BufOp
  | enq (sz : Nat)
  | take (maxCount maxBytes : Nat)

/-- State threaded through a trace of buffer operations: the batches
dispatched so far in dispatch order, the current buffer, and the next fresh
identifier. -/
structure TraceState where
  dispatched : List (List Record)
  buffer : List Record
  nextId : Nat

/-- Apply one buffer operation (§4.1–§4.2): `enq` appends a fresh record at
the back; `take` removes a batch from the front with `takeUpTo` and records
it as dispatched. -/
def applyOp (st : TraceState) : BufOp → TraceState
  | BufOp.enq sz =>
    { st with buffer := st.buffer ++ [⟨st.nextId, sz, 0⟩], nextId := st.nextId + 1 }
  | BufOp.take c b =>
    let p := takeUpTo c b st.buffer
    { st with dispatched := st.dispatched ++ [p.1], buffer := p.2 }

/-- Run a trace of buffer operations from an empty buffer. -/
def runOps (ops : List BufOp) : TraceState :=
  ops.foldl applyOp ⟨[], [], 0⟩

/-- The records a trace enqueues, in enqueue order, with identifiers
starting at `n`. -/
def newRecs (n : Nat) : List BufOp → List Record
  | [] => []
  | BufOp.enq sz :: rest => ⟨n, sz, 0⟩ :: newRecs (n + 1) rest
  | BufOp.take _ _ :: rest => newRecs n rest

/-- The records a trace enqueues, in enqueue (FIFO) order. -/
def enqueuedRecords (ops : List BufOp) : List Record :=
  newRecs 0 ops

/-- Modelled from the spec: the per-resource ownership state tag of §4.3 and
§9 — `unclaimed → in-use → closed` — carried by every transport resource. -/
inductive RState
  | unclaimed
  | inUse (owner : Nat)
  | closed
  deriving DecidableEq

/-- Modelled from the spec: the `DualOwnershipViolation` error class (§7),
raised on an attempt to finalize a transport resource still claimed by
another owner. -/
inductive CancelError
  | dualOwnershipViolation
  deriving DecidableEq

/-- Modelled from the spec: `cancel(handle)` against the state tag (§4.3,
§6): cancelling an already-closed (completed or already-cancelled) resource
is a no-op that releases nothing; cancelling one's own in-use resource
closes it and releases the underlying resource exactly once; finalizing a
resource still claimed by another owner is the `DualOwnershipViolation`
error.  The boolean reports whether this call released the underlying
resource. -/
def cancelOp (caller : Nat) : RState → Except CancelError (RState × Bool)
  | RState.closed => Except.ok (RState.closed, false)
  | RState.unclaimed => Except.ok (RState.closed, false)
  | RState.inUse owner =>
    if owner = caller then Except.ok (RState.closed, true)
    else Except.error CancelError.dualOwnershipViolation

/-- Modelled from the spec: the handle's operation completing on its own —
an in-use resource is finalized to `closed`; the tag of any other state is
unchanged. -/
def finishOp : RState → RState
  | RState.inUse _ => RState.closed
  | s => s

/-- Modelled from the spec: the Backpressure Controller's state (§4.4) —
current drain concurrency, current inter-attempt delay, and the
consecutive-failure counter of `QueueState` (§3). -/
structure BackoffState where
  concurrency : Nat
  delayMs : Nat
  consecutiveFailures : Nat
  deriving DecidableEq

/-- Modelled from the spec: the Backpressure Controller's reaction to one
`SendOutcome` (§4.4).  A `Success` resets the consecutive-failure counter
and recovers concurrency and delay toward the configured defaults; a
failure increments the counter and, while the counter exceeds `threshold`,
reduces concurrency (floor 1) and doubles the delay up to `backoffMaxMs`. -/
def backoffStep (cfg : Config) (threshold : Nat) (st : BackoffState) :
    SendOutcome → BackoffState
  | SendOutcome.success =>
    { concurrency := min cfg.maxDrainConcurrency (st.concurrency + 1),
      delayMs := cfg.backoffBaseMs,
      consecutiveFailures := 0 }
  | _ =>
    let cf := st.consecutiveFailures + 1
    if threshold < cf then
      { concurrency := max 1 (st.concurrency - 1),
        delayMs := min cfg.backoffMaxMs (st.delayMs * 2),
        consecutiveFailures := cf }
    else { st with consecutiveFailures := cf }

/-- `n` consecutive `RetryableFailure` outcomes fed to the controller, as
the harness's mock forces for every send to the collector. -/
def sustainedFailures (cfg : Config) (threshold : Nat) : Nat → BackoffState → BackoffState
  | 0, st => st
  | n + 1, st =>
    sustainedFailures cfg threshold n
      (backoffStep cfg threshold st (SendOutcome.retryableFailure "mocked failure"))

/-- `n` consecutive `Success` outcomes fed to the controller. -/
def sustainedSuccesses (cfg : Config) (threshold : Nat) : Nat → BackoffState → BackoffState
  | 0, st => st
  | n + 1, st =>
    sustainedSuccesses cfg threshold n (backoffStep cfg threshold st SendOutcome.success)

/-- The state-level invariant maintained by every engine step: the byte cap
(§3), global uniqueness of record identifiers across buffer and in-flight
batches, freshness of `nextId`, and the per-record retry bound (§4.3). -/
structure Inv (cfg : Config) (s : EngineState) : Prop where
  bytes : totalBytes s ≤ cfg.maxQueueBytes
  nodup : (allIds s).Nodup
  lt : ∀ n ∈ allIds s, n < s.nextId
  retries : ∀ r ∈ allRecords s, r.retries ≤ cfg.maxRetriesPerRecord

theorem listBytes_append (l₁ l₂ : List Record) :
    listBytes (l₁ ++ l₂) = listBytes l₁ + listBytes l₂ := by
  simp [listBytes]

theorem idsOf_append (l₁ l₂ : List Record) :
    idsOf (l₁ ++ l₂) = idsOf l₁ ++ idsOf l₂ := by
  simp [idsOf]

theorem takeUpTo_append (n maxB : Nat) (l : List Record) :
    (takeUpTo n maxB l).1 ++ (takeUpTo n maxB l).2 = l := by
  induction n generalizing maxB l with
  | zero => simp [takeUpTo]
  | succ n ih =>
    cases l with
    | nil => simp [takeUpTo]
    | cons r rest =>
      simp only [takeUpTo]
      split
      · simpa using ih _ rest
      · simp

theorem dropOldestUntilFits_suffix (cap fixed need : Nat) (l : List Record) :
    dropOldestUntilFits cap fixed need l <:+ l := by
  induction l with
  | nil => simp [dropOldestUntilFits]
  | cons r rest ih =>
    simp only [dropOldestUntilFits]
    split
    · exact List.suffix_refl _
    · exact ih.trans (List.suffix_cons r rest)

theorem dropOldestUntilFits_eq_self (cap fixed need : Nat) (l : List Record)
    (h : fixed + listBytes l + need ≤ cap) :
    dropOldestUntilFits cap fixed need l = l := by
  cases l with
  | nil => rfl
  | cons r rest => simp [dropOldestUntilFits, h]

theorem listBytes_le_of_suffix {l₁ l₂ : List Record} (h : l₁ <:+ l₂) :
    listBytes l₁ ≤ listBytes l₂ := by
  obtain ⟨t, rfl⟩ := h
  simp [listBytes_append]

theorem listBytes_bumpRetries_le (cfg : Config) (b : List Record) :
    listBytes (bumpRetries cfg b) ≤ listBytes b := by
  induction b with
  | nil => simp [bumpRetries, listBytes]
  | cons r rest ih =>
    simp only [bumpRetries, List.filter_cons] at ih ⊢
    split
    · simp only [List.map_cons, listBytes, List.sum_cons] at ih ⊢
      omega
    · simp only [listBytes, List.map_cons, List.sum_cons] at ih ⊢
      omega

theorem idsOf_bumpRetries (cfg : Config) (b : List Record) :
    idsOf (bumpRetries cfg b) =
      idsOf (b.filter (fun r => r.retries + 1 ≤ cfg.maxRetriesPerRecord)) := by
  induction b with
  | nil => rfl
  | cons r rest ih =>
    simp only [bumpRetries, List.filter_cons] at ih ⊢
    split
    · simp only [List.map_cons, idsOf] at ih ⊢
      simpa using ih
    · exact ih

theorem sum_map_eraseIdx {α : Type} (f : α → Nat) :
    ∀ (l : List α) (i : Nat) (b : α), l[i]? = some b →
      ((l.eraseIdx i).map f).sum + f b = (l.map f).sum := by
  intro l
  induction l with
  | nil => intro i b h; simp at h
  | cons a rest ih =>
    intro i b h
    cases i with
    | zero =>
      simp only [List.getElem?_cons_zero, Option.some.injEq] at h
      subst h
      simp [List.eraseIdx]
      omega
    | succ j =>
      simp only [List.getElem?_cons_succ] at h
      have := ih j b h
      simp [List.eraseIdx]
      omega

theorem flatten_map_eraseIdx_perm {α β : Type} (f : α → List β) :
    ∀ (l : List α) (i : Nat) (b : α), l[i]? = some b →
      List.Perm (((l.eraseIdx i).map f).flatten ++ f b) ((l.map f).flatten) := by
  intro l
  induction l with
  | nil => intro i b h; simp at h
  | cons a rest ih =>
    intro i b h
    cases i with
    | zero =>
      simp only [List.getElem?_cons_zero, Option.some.injEq] at h
      subst h
      simp only [List.eraseIdx, List.map_cons, List.flatten_cons]
      exact List.perm_append_comm
    | succ j =>
      simp only [List.getElem?_cons_succ] at h
      have hp := ih j b h
      simp only [List.eraseIdx, List.map_cons, List.flatten_cons]
      rw [← Multiset.coe_eq_coe] at hp ⊢
      simp only [← Multiset.coe_add] at hp ⊢
      rw [← hp]
      abel

theorem subperm_nodup {α : Type} {l₁ l₂ : List α} (h : List.Subperm l₁ l₂)
    (h₂ : l₂.Nodup) : l₁.Nodup := by
  obtain ⟨l, hp, hs⟩ := h
  exact hp.nodup_iff.mp (h₂.sublist hs)

theorem nodup_append_fresh {l : List Nat} {n : Nat} (hnd : l.Nodup)
    (h : ∀ x ∈ l, x < n) : (l ++ [n]).Nodup := by
  rw [List.nodup_append]
  refine ⟨hnd, List.nodup_singleton n, ?_⟩
  intro x hx hmem
  simp only [List.mem_singleton] at hmem
  subst hmem
  exact absurd (h _ hx) (lt_irrefl _)

theorem completeOp_none {cfg : Config} {i : Nat} {out : SendOutcome} {s : EngineState}
    (h : s.inFlight[i]? = none) : completeOp cfg i out s = s := by
  simp [completeOp, h]

theorem completeOp_success {cfg : Config} {i : Nat} {s : EngineState} {b : List Record}
    (h : s.inFlight[i]? = some b) :
    completeOp cfg i SendOutcome.success s = { s with inFlight := s.inFlight.eraseIdx i } := by
  simp [completeOp, h]

theorem completeOp_fatal {cfg : Config} {i : Nat} {s : EngineState} {b : List Record}
    {reason : String} (h : s.inFlight[i]? = some b) :
    completeOp cfg i (SendOutcome.fatalFailure reason) s =
      { s with inFlight := s.inFlight.eraseIdx i } := by
  simp [completeOp, h]

theorem completeOp_retryable {cfg : Config} {i : Nat} {s : EngineState} {b : List Record}
    {reason : String} (h : s.inFlight[i]? = some b) :
    completeOp cfg i (SendOutcome.retryableFailure reason) s =
      { s with
        inFlight := s.inFlight.eraseIdx i,
        buffer := dropOldestUntilFits cfg.maxQueueBytes
          ((s.inFlight.eraseIdx i).map listBytes).sum 0
          (bumpRetries cfg b ++ s.buffer) } := by
  simp [completeOp, h]

theorem enqueueOp_inv {cfg : Config} (sz : Nat) {s : EngineState} (h : Inv cfg s) :
    Inv cfg (enqueueOp cfg sz s).1 := by
  have hsing : listBytes [(⟨s.nextId, sz, 0⟩ : Record)] = sz := by simp [listBytes]
  unfold enqueueOp
  split
  case isTrue hfits =>
    constructor
    · simp only [totalBytes, inFlightBytes] at hfits ⊢
      simp only [listBytes_append]
      omega
    · simp only [allIds, idsOf_append]
      have hperm : List.Perm
          ((idsOf s.buffer ++ idsOf [⟨s.nextId, sz, 0⟩]) ++ (s.inFlight.map idsOf).flatten)
          ((idsOf s.buffer ++ (s.inFlight.map idsOf).flatten) ++ idsOf [⟨s.nextId, sz, 0⟩]) := by
        rw [← Multiset.coe_eq_coe]
        simp only [← Multiset.coe_add]
        abel
      refine hperm.nodup_iff.mpr ?_
      exact nodup_append_fresh h.nodup h.lt
    · intro n hn
      simp only [allIds, idsOf_append, List.mem_append] at hn
      rcases hn with (hn | hn) | hn
      · have hmem : n ∈ allIds s := by
          unfold allIds
          exact List.mem_append.mpr (Or.inl hn)
        simpa using Nat.lt_succ_of_lt (h.lt n hmem)
      · simp only [idsOf, List.map_cons, List.map_nil, List.mem_singleton] at hn
        simp [hn]
      · have hmem : n ∈ allIds s := by
          unfold allIds
          exact List.mem_append.mpr (Or.inr hn)
        simpa using Nat.lt_succ_of_lt (h.lt n hmem)
    · intro r hr
      simp only [allRecords, List.mem_append] at hr
      rcases hr with (hr | hr) | hr
      · exact h.retries r (List.mem_append.mpr (Or.inl hr))
      · simp only [List.mem_singleton] at hr
        subst hr
        exact Nat.zero_le _
      · exact h.retries r (List.mem_append.mpr (Or.inr hr))
  case isFalse hover =>
    cases hp : cfg.queueFullPolicy
    case reject => exact h
    case block => exact h
    case dropOldest =>
      simp only
      split
      case isTrue hfits2 =>
        have hsuf := dropOldestUntilFits_suffix cfg.maxQueueBytes (inFlightBytes s) sz s.buffer
        have hsub : List.Sublist
            (idsOf (dropOldestUntilFits cfg.maxQueueBytes (inFlightBytes s) sz s.buffer)
              ++ (s.inFlight.map idsOf).flatten)
            (idsOf s.buffer ++ (s.inFlight.map idsOf).flatten) :=
          List.Sublist.append ((hsuf.sublist).map Record.id) (List.Sublist.refl _)
        constructor
        · simp only [totalBytes, inFlightBytes] at hfits2 ⊢
          simp only [listBytes_append]
          omega
        · simp only [allIds, idsOf_append]
          have hperm : List.Perm
              ((idsOf (dropOldestUntilFits cfg.maxQueueBytes (inFlightBytes s) sz s.buffer)
                ++ idsOf [⟨s.nextId, sz, 0⟩]) ++ (s.inFlight.map idsOf).flatten)
              ((idsOf (dropOldestUntilFits cfg.maxQueueBytes (inFlightBytes s) sz s.buffer)
                ++ (s.inFlight.map idsOf).flatten) ++ idsOf [⟨s.nextId, sz, 0⟩]) := by
            rw [← Multiset.coe_eq_coe]
            simp only [← Multiset.coe_add]
            abel
          refine hperm.nodup_iff.mpr ?_
          refine nodup_append_fresh (h.nodup.sublist hsub) ?_
          intro x hx
          exact h.lt x ((hsub.subset) hx)
        · intro n hn
          simp only [allIds, idsOf_append, List.mem_append] at hn
          rcases hn with (hn | hn) | hn
          · have hmem : n ∈ allIds s := by
              unfold allIds
              exact List.mem_append.mpr (Or.inl ((hsuf.sublist.map Record.id).subset hn))
            simpa using Nat.lt_succ_of_lt (h.lt n hmem)
          · simp only [idsOf, List.map_cons, List.map_nil, List.mem_singleton] at hn
            simp [hn]
          · have hmem : n ∈ allIds s := by
              unfold allIds
              exact List.mem_append.mpr (Or.inr hn)
            simpa using Nat.lt_succ_of_lt (h.lt n hmem)
        · intro r hr
          simp only [allRecords, List.mem_append] at hr
          rcases hr with (hr | hr) | hr
          · exact h.retries r (List.mem_append.mpr (Or.inl (hsuf.sublist.subset hr)))
          · simp only [List.mem_singleton] at hr
            subst hr
            exact Nat.zero_le _
          · exact h.retries r (List.mem_append.mpr (Or.inr hr))
      case isFalse => exact h

theorem drainOp_allIds_perm (cfg : Config) (s : EngineState) :
    List.Perm (allIds (drainOp cfg s)) (allIds s) := by
  unfold drainOp
  split
  · split
    · exact List.Perm.refl _
    · have h := takeUpTo_append cfg.maxBatchItems cfg.maxBatchBytes s.buffer
      simp only [allIds, List.map_append, List.flatten_append, List.map_cons,
        List.flatten_cons, List.map_nil, List.flatten_nil, List.append_nil]
      conv_rhs => rw [← h, idsOf_append]
      rw [← Multiset.coe_eq_coe]
      simp only [← Multiset.coe_add]
      abel
  · exact List.Perm.refl _

theorem drainOp_allRecords_perm (cfg : Config) (s : EngineState) :
    List.Perm (allRecords (drainOp cfg s)) (allRecords s) := by
  unfold drainOp
  split
  · split
    · exact List.Perm.refl _
    · have h := takeUpTo_append cfg.maxBatchItems cfg.maxBatchBytes s.buffer
      simp only [allRecords, List.flatten_append, List.flatten_cons, List.flatten_nil,
        List.append_nil]
      conv_rhs => rw [← h]
      rw [← Multiset.coe_eq_coe]
      simp only [← Multiset.coe_add]
      abel
  · exact List.Perm.refl _

theorem drainOp_totalBytes (cfg : Config) (s : EngineState) :
    totalBytes (drainOp cfg s) = totalBytes s := by
  unfold drainOp
  split
  · split
    · rfl
    · have h2 : listBytes ((takeUpTo cfg.maxBatchItems cfg.maxBatchBytes s.buffer).1
          ++ (takeUpTo cfg.maxBatchItems cfg.maxBatchBytes s.buffer).2)
          = listBytes s.buffer := by
        rw [takeUpTo_append]
      rw [listBytes_append] at h2
      simp only [totalBytes, inFlightBytes, List.map_append, List.sum_append,
        List.map_cons, List.sum_cons, List.map_nil, List.sum_nil]
      omega
  · rfl

theorem drainOp_nextId (cfg : Config) (s : EngineState) :
    (drainOp cfg s).nextId = s.nextId := by
  unfold drainOp
  split
  · split
    · rfl
    · rfl
  · rfl

theorem drainOp_inv {cfg : Config} {s : EngineState} (h : Inv cfg s) :
    Inv cfg (drainOp cfg s) := by
  constructor
  · rw [drainOp_totalBytes]
    exact h.bytes
  · exact (drainOp_allIds_perm cfg s).nodup_iff.mpr h.nodup
  · intro n hn
    rw [drainOp_nextId]
    exact h.lt n ((drainOp_allIds_perm cfg s).subset hn)
  · intro r hr
    exact h.retries r ((drainOp_allRecords_perm cfg s).subset hr)

theorem bumpRetries_retries_le (cfg : Config) (b : List Record) :
    ∀ r ∈ bumpRetries cfg b, r.retries ≤ cfg.maxRetriesPerRecord := by
  intro r hr
  simp only [bumpRetries, List.mem_map, List.mem_filter] at hr
  obtain ⟨r0, ⟨_, hle⟩, hr0⟩ := hr
  subst hr0
  simp only [decide_eq_true_eq] at hle
  exact hle

theorem completeOp_nextId (cfg : Config) (i : Nat) (out : SendOutcome) (s : EngineState) :
    (completeOp cfg i out s).nextId = s.nextId := by
  cases hb : s.inFlight[i]? with
  | none => rw [completeOp_none hb]
  | some b =>
    cases out with
    | success => rw [completeOp_success hb]
    | fatalFailure r => rw [completeOp_fatal hb]
    | retryableFailure r => rw [completeOp_retryable hb]

theorem completeOp_allIds_subperm (cfg : Config) (i : Nat) (out : SendOutcome)
    (s : EngineState) : List.Subperm (allIds (completeOp cfg i out s)) (allIds s) := by
  cases hb : s.inFlight[i]? with
  | none =>
    rw [completeOp_none hb]
  | some b =>
    have hperm := flatten_map_eraseIdx_perm idsOf s.inFlight i b hb
    have hs : List.Perm (allIds s)
        ((idsOf b ++ idsOf s.buffer) ++ ((s.inFlight.eraseIdx i).map idsOf).flatten) := by
      unfold allIds
      rw [← Multiset.coe_eq_coe] at hperm ⊢
      simp only [← Multiset.coe_add] at hperm ⊢
      rw [← hperm]
      abel
    have hdisc : List.Subperm
        (idsOf s.buffer ++ ((s.inFlight.eraseIdx i).map idsOf).flatten) (allIds s) := by
      refine List.Subperm.trans (List.Sublist.subperm ?_) hs.symm.subperm
      exact List.Sublist.append (List.sublist_append_right _ _) (List.Sublist.refl _)
    cases out with
    | success =>
      rw [completeOp_success hb]
      exact hdisc
    | fatalFailure r =>
      rw [completeOp_fatal hb]
      exact hdisc
    | retryableFailure r =>
      rw [completeOp_retryable hb]
      refine List.Subperm.trans (List.Sublist.subperm ?_) hs.symm.subperm
      refine List.Sublist.append ?_ (List.Sublist.refl _)
      have h1 : List.Sublist
          (idsOf (dropOldestUntilFits cfg.maxQueueBytes
            ((s.inFlight.eraseIdx i).map listBytes).sum 0 (bumpRetries cfg b ++ s.buffer)))
          (idsOf (bumpRetries cfg b) ++ idsOf s.buffer) := by
        have h0 := ((dropOldestUntilFits_suffix cfg.maxQueueBytes
          ((s.inFlight.eraseIdx i).map listBytes).sum 0
          (bumpRetries cfg b ++ s.buffer)).sublist).map Record.id
        rw [List.map_append] at h0
        exact h0
      rw [idsOf_bumpRetries] at h1
      refine h1.trans ?_
      exact List.Sublist.append
        ((List.filter_sublist _).map Record.id) (List.Sublist.refl _)

theorem completeOp_totalBytes_le (cfg : Config) (i : Nat) (out : SendOutcome)
    (s : EngineState) : totalBytes (completeOp cfg i out s) ≤ totalBytes s := by
  cases hb : s.inFlight[i]? with
  | none =>
    rw [completeOp_none hb]
  | some b =>
    have hsum := sum_map_eraseIdx listBytes s.inFlight i b hb
    cases out with
    | success =>
      rw [completeOp_success hb]
      simp only [totalBytes, inFlightBytes]
      omega
    | fatalFailure r =>
      rw [completeOp_fatal hb]
      simp only [totalBytes, inFlightBytes]
      omega
    | retryableFailure r =>
      rw [completeOp_retryable hb]
      simp only [totalBytes, inFlightBytes]
      have h1 := listBytes_le_of_suffix (dropOldestUntilFits_suffix cfg.maxQueueBytes
        ((s.inFlight.eraseIdx i).map listBytes).sum 0 (bumpRetries cfg b ++ s.buffer))
      rw [listBytes_append] at h1
      have h2 := listBytes_bumpRetries_le cfg b
      have h3 : listBytes b ≤ (s.inFlight.map listBytes).sum := by omega
      omega

theorem mem_flatten_of_sublist {α : Type} {L₁ L₂ : List (List α)} (h : List.Sublist L₁ L₂)
    {x : α} (hx : x ∈ L₁.flatten) : x ∈ L₂.flatten := by
  rw [List.mem_flatten] at hx ⊢
  obtain ⟨l, hl, hxl⟩ := hx
  exact ⟨l, h.subset hl, hxl⟩

theorem completeOp_retries {cfg : Config} {i : Nat} {out : SendOutcome} {s : EngineState}
    (h : ∀ r ∈ allRecords s, r.retries ≤ cfg.maxRetriesPerRecord) :
    ∀ r ∈ allRecords (completeOp cfg i out s), r.retries ≤ cfg.maxRetriesPerRecord := by
  cases hb : s.inFlight[i]? with
  | none =>
    rw [completeOp_none hb]
    exact h
  | some b =>
    have herase : ∀ r : Record, r ∈ (s.inFlight.eraseIdx i).flatten →
        r.retries ≤ cfg.maxRetriesPerRecord := by
      intro r hr
      exact h r (List.mem_append.mpr
        (Or.inr (mem_flatten_of_sublist (List.eraseIdx_sublist s.inFlight i) hr)))
    cases out with
    | success =>
      rw [completeOp_success hb]
      intro r hr
      rcases List.mem_append.mp hr with hr | hr
      · exact h r (List.mem_append.mpr (Or.inl hr))
      · exact herase r hr
    | fatalFailure rr =>
      rw [completeOp_fatal hb]
      intro r hr
      rcases List.mem_append.mp hr with hr | hr
      · exact h r (List.mem_append.mpr (Or.inl hr))
      · exact herase r hr
    | retryableFailure rr =>
      rw [completeOp_retryable hb]
      intro r hr
      rcases List.mem_append.mp hr with hr | hr
      · have hsub := (dropOldestUntilFits_suffix cfg.maxQueueBytes
          ((s.inFlight.eraseIdx i).map listBytes).sum 0
          (bumpRetries cfg b ++ s.buffer)).sublist.subset hr
        rcases List.mem_append.mp hsub with hk | hbuf
        · exact bumpRetries_retries_le cfg b r hk
        · exact h r (List.mem_append.mpr (Or.inl hbuf))
      · exact herase r hr

theorem completeOp_inv {cfg : Config} {i : Nat} {out : SendOutcome} {s : EngineState}
    (h : Inv cfg s) : Inv cfg (completeOp cfg i out s) := by
  constructor
  · exact le_trans (completeOp_totalBytes_le cfg i out s) h.bytes
  · exact subperm_nodup (completeOp_allIds_subperm cfg i out s) h.nodup
  · intro n hn
    rw [completeOp_nextId]
    exact h.lt n ((completeOp_allIds_subperm cfg i out s).subset hn)
  · exact completeOp_retries h.retries

theorem step_inv {cfg : Config} {s s' : EngineState} (h : Inv cfg s) (hs : Step cfg s s') :
    Inv cfg s' := by
  cases hs with
  | enqueue sz s => exact enqueueOp_inv sz h
  | drain s => exact drainOp_inv h
  | complete i out s => exact completeOp_inv h

theorem inv_init (cfg : Config) : Inv cfg initState := by
  constructor
  · simp [initState, totalBytes, inFlightBytes, listBytes]
  · simp [initState, allIds, idsOf]
  · intro n hn
    simp [initState, allIds, idsOf] at hn
  · intro r hr
    simp [initState, allRecords] at hr

theorem inv_of_reachable {cfg : Config} {s : EngineState} (h : Reachable cfg s) :
    Inv cfg s := by
  induction h with
  | init => exact inv_init cfg
  | step hr hs ih => exact step_inv ih hs

theorem enqueueOp_cases (cfg : Config) (sz : Nat) (s : EngineState) :
    (enqueueOp cfg sz s).1 = s ∨
    ∃ tail, tail <:+ s.buffer ∧
      (enqueueOp cfg sz s).1 =
        { s with buffer := tail ++ [⟨s.nextId, sz, 0⟩], nextId := s.nextId + 1 } := by
  unfold enqueueOp
  split
  · exact Or.inr ⟨s.buffer, List.suffix_refl _, rfl⟩
  · cases cfg.queueFullPolicy
    case reject => exact Or.inl rfl
    case block => exact Or.inl rfl
    case dropOldest =>
      simp only
      split
      · exact Or.inr ⟨_, dropOldestUntilFits_suffix _ _ _ _, rfl⟩
      · exact Or.inl rfl

theorem step_nextId_mono {cfg : Config} {s s' : EngineState} (hs : Step cfg s s') :
    s.nextId ≤ s'.nextId := by
  cases hs with
  | enqueue sz s =>
    rcases enqueueOp_cases cfg sz s with h | ⟨tail, _, h⟩
    · rw [h]
    · rw [h]
      exact Nat.le_succ _
  | drain s =>
    rw [drainOp_nextId]
  | complete i out s =>
    rw [completeOp_nextId]

theorem step_allIds_new {cfg : Config} {s s' : EngineState} (hs : Step cfg s s') :
    ∀ x ∈ allIds s', x ∈ allIds s ∨ x = s.nextId := by
  cases hs with
  | enqueue sz s =>
    rcases enqueueOp_cases cfg sz s with h | ⟨tail, htail, h⟩
    · rw [h]
      exact fun x hx => Or.inl hx
    · rw [h]
      intro x hx
      simp only [allIds, idsOf_append, List.mem_append] at hx
      rcases hx with (hx | hx) | hx
      · refine Or.inl ?_
        unfold allIds
        exact List.mem_append.mpr (Or.inl ((htail.sublist.map Record.id).subset hx))
      · simp only [idsOf, List.map_cons, List.map_nil, List.mem_singleton] at hx
        exact Or.inr hx
      · refine Or.inl ?_
        unfold allIds
        exact List.mem_append.mpr (Or.inr hx)
  | drain s =>
    intro x hx
    exact Or.inl ((drainOp_allIds_perm cfg s).subset hx)
  | complete i out s =>
    intro x hx
    exact Or.inl ((completeOp_allIds_subperm cfg i out s).subset hx)

theorem fresh_of_steps {cfg : Config} {s s' : EngineState}
    (hsteps : Relation.ReflTransGen (Step cfg) s s') {x : Nat}
    (hx : x ∉ allIds s) (hlt : x < s.nextId) : x ∉ allIds s' ∧ x < s'.nextId := by
  induction hsteps with
  | refl => exact ⟨hx, hlt⟩
  | tail hpre hstep ih =>
    obtain ⟨ih1, ih2⟩ := ih
    constructor
    · intro hmem
      rcases step_allIds_new hstep x hmem with h | h
      · exact ih1 h
      · omega
    · exact lt_of_lt_of_le ih2 (step_nextId_mono hstep)

theorem runOps_fold (ops : List BufOp) :
    ∀ st : TraceState,
      ((ops.foldl applyOp st).dispatched).flatten ++ (ops.foldl applyOp st).buffer
        = st.dispatched.flatten ++ st.buffer ++ newRecs st.nextId ops ∧
      (ops.foldl applyOp st).nextId = st.nextId + (newRecs st.nextId ops).length := by
  induction ops with
  | nil =>
    intro st
    simp [newRecs]
  | cons op rest ih =>
    intro st
    cases op with
    | enq sz =>
      obtain ⟨ih1, ih2⟩ := ih (applyOp st (BufOp.enq sz))
      constructor
      · rw [List.foldl_cons, ih1]
        simp [applyOp, newRecs, List.append_assoc]
      · rw [List.foldl_cons, ih2]
        simp [applyOp, newRecs]
        omega
    | take c bnd =>
      obtain ⟨ih1, ih2⟩ := ih (applyOp st (BufOp.take c bnd))
      constructor
      · rw [List.foldl_cons, ih1]
        simp only [applyOp, newRecs, List.flatten_append, List.flatten_cons,
          List.flatten_nil, List.append_nil, List.append_assoc]
        rw [← List.append_assoc ((takeUpTo c bnd st.buffer).1), takeUpTo_append]
      · rw [List.foldl_cons, ih2]
        simp [applyOp, newRecs]

theorem failStep_eq (cfg : Config) (th : Nat) (st : BackoffState) :
    backoffStep cfg th st (SendOutcome.retryableFailure "mocked failure")
      = if th < st.consecutiveFailures + 1 then
          { concurrency := max 1 (st.concurrency - 1),
            delayMs := min cfg.backoffMaxMs (st.delayMs * 2),
            consecutiveFailures := st.consecutiveFailures + 1 }
        else { st with consecutiveFailures := st.consecutiveFailures + 1 } := rfl

theorem succStep_eq (cfg : Config) (th : Nat) (st : BackoffState) :
    backoffStep cfg th st SendOutcome.success
      = { concurrency := min cfg.maxDrainConcurrency (st.concurrency + 1),
          delayMs := cfg.backoffBaseMs,
          consecutiveFailures := 0 } := rfl

theorem sustainedFailures_succ (cfg : Config) (th n : Nat) (st : BackoffState) :
    sustainedFailures cfg th (n + 1) st
      = sustainedFailures cfg th n
          (backoffStep cfg th st (SendOutcome.retryableFailure "mocked failure")) := rfl

theorem sustainedFailures_add (cfg : Config) (th m n : Nat) (st : BackoffState) :
    sustainedFailures cfg th (m + n) st =
      sustainedFailures cfg th n (sustainedFailures cfg th m st) := by
  induction m generalizing st with
  | zero =>
    rw [Nat.zero_add]
    rfl
  | succ m ih =>
    have harith : m + 1 + n = (m + n) + 1 := by omega
    rw [harith, sustainedFailures_succ, sustainedFailures_succ, ih]

theorem failStep_cf (cfg : Config) (th : Nat) (st : BackoffState) :
    (backoffStep cfg th st (SendOutcome.retryableFailure "mocked failure")).consecutiveFailures
      = st.consecutiveFailures + 1 := by
  rw [failStep_eq]
  split <;> rfl

theorem failStep_conc_le (cfg : Config) (th : Nat) (st : BackoffState) :
    (backoffStep cfg th st (SendOutcome.retryableFailure "mocked failure")).concurrency
      ≤ max 1 st.concurrency := by
  rw [failStep_eq]
  split
  · show max 1 (st.concurrency - 1) ≤ max 1 st.concurrency
    omega
  · show st.concurrency ≤ max 1 st.concurrency
    omega

theorem failStep_delay_pos (cfg : Config) (th : Nat) (st : BackoffState)
    (hmax : 1 ≤ cfg.backoffMaxMs) (hd : 1 ≤ st.delayMs) :
    1 ≤ (backoffStep cfg th st
      (SendOutcome.retryableFailure "mocked failure")).delayMs := by
  rw [failStep_eq]
  split
  · show 1 ≤ min cfg.backoffMaxMs (st.delayMs * 2)
    omega
  · exact hd

theorem sustainedFailures_cf (cfg : Config) (th : Nat) :
    ∀ (n : Nat) (st : BackoffState),
      (sustainedFailures cfg th n st).consecutiveFailures = st.consecutiveFailures + n := by
  intro n
  induction n with
  | zero => intro st; rfl
  | succ n ih =>
    intro st
    rw [sustainedFailures_succ, ih, failStep_cf]
    omega

theorem sustainedFailures_conc_le (cfg : Config) (th : Nat) :
    ∀ (n : Nat) (st : BackoffState),
      (sustainedFailures cfg th n st).concurrency ≤ max 1 st.concurrency := by
  intro n
  induction n with
  | zero =>
    intro st
    show st.concurrency ≤ max 1 st.concurrency
    omega
  | succ n ih =>
    intro st
    rw [sustainedFailures_succ]
    refine le_trans (ih _) ?_
    have := failStep_conc_le cfg th st
    omega

theorem sustainedFailures_delay_pos (cfg : Config) (th : Nat) (hmax : 1 ≤ cfg.backoffMaxMs) :
    ∀ (n : Nat) (st : BackoffState), 1 ≤ st.delayMs →
      1 ≤ (sustainedFailures cfg th n st).delayMs := by
  intro n
  induction n with
  | zero => intro st h; exact h
  | succ n ih =>
    intro st h
    rw [sustainedFailures_succ]
    exact ih _ (failStep_delay_pos cfg th st hmax h)

theorem sustainedFailures_conc_one (cfg : Config) (th : Nat) :
    ∀ (n : Nat) (st : BackoffState), th ≤ st.consecutiveFailures →
      st.concurrency ≤ n + 1 →
      (sustainedFailures cfg th (n + 1) st).concurrency = 1 := by
  intro n
  induction n with
  | zero =>
    intro st hth hc
    rw [sustainedFailures_succ]
    show (backoffStep cfg th st (SendOutcome.retryableFailure "mocked failure")).concurrency = 1
    rw [failStep_eq, if_pos (by omega)]
    show max 1 (st.concurrency - 1) = 1
    omega
  | succ n ih =>
    intro st hth hc
    rw [sustainedFailures_succ]
    refine ih _ ?_ ?_
    · rw [failStep_cf]
      omega
    · have hred : (backoffStep cfg th st
          (SendOutcome.retryableFailure "mocked failure")).concurrency
          = max 1 (st.concurrency - 1) := by
        rw [failStep_eq, if_pos (by omega)]
      rw [hred]
      omega

theorem sustainedFailures_delay_form (cfg : Config) (th : Nat) :
    ∀ (n : Nat) (st : BackoffState), th ≤ st.consecutiveFailures →
      (sustainedFailures cfg th (n + 1) st).delayMs
        = min cfg.backoffMaxMs (st.delayMs * 2 ^ (n + 1)) := by
  intro n
  induction n with
  | zero =>
    intro st hth
    rw [sustainedFailures_succ]
    show (backoffStep cfg th st (SendOutcome.retryableFailure "mocked failure")).delayMs = _
    rw [failStep_eq, if_pos (by omega)]
    show min cfg.backoffMaxMs (st.delayMs * 2) = _
    rw [pow_one]
  | succ n ih =>
    intro st hth
    rw [sustainedFailures_succ]
    rw [ih _ (by rw [failStep_cf]; omega)]
    have hstep : (backoffStep cfg th st
        (SendOutcome.retryableFailure "mocked failure")).delayMs
        = min cfg.backoffMaxMs (st.delayMs * 2) := by
      rw [failStep_eq, if_pos (by omega)]
    rw [hstep]
    rcases le_total cfg.backoffMaxMs (st.delayMs * 2) with hle | hle
    · rw [Nat.min_eq_left hle]
      have h1 : cfg.backoffMaxMs ≤ cfg.backoffMaxMs * 2 ^ (n + 1) :=
        Nat.le_mul_of_pos_right _ (Nat.pos_pow_of_pos _ (by omega))
      have h2 : cfg.backoffMaxMs ≤ st.delayMs * 2 ^ (n + 1 + 1) := by
        calc cfg.backoffMaxMs ≤ st.delayMs * 2 := hle
          _ ≤ st.delayMs * 2 * 2 ^ (n + 1) :=
            Nat.le_mul_of_pos_right _ (Nat.pos_pow_of_pos _ (by omega))
          _ = st.delayMs * 2 ^ (n + 1 + 1) := by ring
      rw [Nat.min_eq_left h1, Nat.min_eq_left h2]
    · rw [Nat.min_eq_right hle]
      have heq : st.delayMs * 2 * 2 ^ (n + 1) = st.delayMs * 2 ^ (n + 1 + 1) := by ring
      rw [heq]

theorem sustainedFailures_fixed (cfg : Config) (th : Nat) :
    ∀ (n : Nat) (st : BackoffState), th ≤ st.consecutiveFailures →
      st.concurrency = 1 → st.delayMs = cfg.backoffMaxMs →
      (sustainedFailures cfg th n st).concurrency = 1 ∧
      (sustainedFailures cfg th n st).delayMs = cfg.backoffMaxMs := by
  intro n
  induction n with
  | zero =>
    intro st _ hc hdl
    exact ⟨hc, hdl⟩
  | succ n ih =>
    intro st hth hc hdl
    rw [sustainedFailures_succ]
    refine ih _ ?_ ?_ ?_
    · rw [failStep_cf]
      omega
    · rw [failStep_eq, if_pos (by omega)]
      show max 1 (st.concurrency - 1) = 1
      omega
    · rw [failStep_eq, if_pos (by omega)]
      show min cfg.backoffMaxMs (st.delayMs * 2) = cfg.backoffMaxMs
      rw [hdl]
      omega

theorem sustainedSuccesses_succ (cfg : Config) (th k : Nat) (st : BackoffState) :
    sustainedSuccesses cfg th (k + 1) st
      = sustainedSuccesses cfg th k (backoffStep cfg th st SendOutcome.success) := rfl

theorem sustainedSuccesses_conc (cfg : Config) (th : Nat) :
    ∀ (k : Nat) (st : BackoffState),
      (sustainedSuccesses cfg th (k + 1) st).concurrency
        = min cfg.maxDrainConcurrency (st.concurrency + (k + 1)) := by
  intro k
  induction k with
  | zero =>
    intro st
    rw [sustainedSuccesses_succ]
    show (backoffStep cfg th st SendOutcome.success).concurrency = _
    rw [succStep_eq]
  | succ k ih =>
    intro st
    rw [sustainedSuccesses_succ, ih, succStep_eq]
    show min cfg.maxDrainConcurrency
      (min cfg.maxDrainConcurrency (st.concurrency + 1) + (k + 1)) = _
    omega

theorem sustainedSuccesses_delay (cfg : Config) (th : Nat) :
    ∀ (k : Nat) (st : BackoffState),
      (sustainedSuccesses cfg th (k + 1) st).delayMs = cfg.backoffBaseMs := by
  intro k
  induction k with
  | zero =>
    intro st
    rfl
  | succ k ih =>
    intro st
    rw [sustainedSuccesses_succ]
    exact ih _

end IngestEngine

namespace LangsmithHarness

theorem foldl_push_data (g : Nat → Char) :
    ∀ (l : List Nat) (acc : String),
      (l.foldl (fun a i => a.push (g i)) acc).data = acc.data ++ l.map g := by
  intro l
  induction l with
  | nil =>
    intro acc
    simp
  | cons x rest ih =>
    intro acc
    rw [List.foldl_cons, ih]
    show (acc.data ++ [g x]) ++ rest.map g = acc.data ++ (g x :: rest.map g)
    simp

/-- C9 (counterexample): the alphabet string used by `generateRandomText` in
`src/index.ts` line 107 has 67 characters, not the 68 the claim states. -/
theorem C9_alphabet_size_counterexample :
    randomTextChars.length = 67 ∧ ¬ randomTextChars.length = 68 := by
  constructor
  · decide
  · decide

/-- C9 (amended): `generateRandomText(length)` returns, for every
non-negative integer length and every stream of random draws, a string of
exactly that length each of whose characters belongs to the fixed
67-character alphabet
`"ABCDEFGHIJKLMNOPQRSTUVWXYZabcdefghijklmnopqrstuvwxyz0123456789 .,!?"`;
it is a total function and its output length is independent of the random
choices. -/
theorem C9_generateRandomText_length_and_alphabet (len : Nat)
    (f : Nat → Fin randomTextChars.length) :
    (generateRandomText len f).length = len ∧
    (∀ c ∈ (generateRandomText len f).data, c ∈ randomTextChars) ∧
    ∀ g : Nat → Fin randomTextChars.length,
      (generateRandomText len g).length = (generateRandomText len f).length := by
  have hdata : ∀ h : Nat → Fin randomTextChars.length,
      (generateRandomText len h).data
        = (List.range len).map (fun i => randomTextChars.get (h i)) := by
    intro h
    unfold generateRandomText
    rw [foldl_push_data (fun i => randomTextChars.get (h i)) (List.range len) ""]
    rfl
  have hlen : ∀ h : Nat → Fin randomTextChars.length,
      (generateRandomText len h).length = len := by
    intro h
    show (generateRandomText len h).data.length = len
    rw [hdata h]
    simp
  refine ⟨hlen f, ?_, fun g => by rw [hlen g, hlen f]⟩
  intro c hc
  rw [hdata f] at hc
  obtain ⟨i, _, rfl⟩ := List.mem_map.mp hc
  exact List.get_mem randomTextChars (f i).1 (f i).2

/-- C9 (witness): the amended theorem applied at length 3 and the constant
draw 0. -/
theorem C9_generateRandomText_witness :
    (generateRandomText 3 (fun _ => ⟨0, by decide⟩)).length = 3 ∧
    ∀ c ∈ (generateRandomText 3 (fun _ => ⟨0, by decide⟩)).data, c ∈ randomTextChars :=
  ⟨(C9_generateRandomText_length_and_alphabet 3 (fun _ => ⟨0, by decide⟩)).1,
   (C9_generateRandomText_length_and_alphabet 3 (fun _ => ⟨0, by decide⟩)).2.1⟩

/-- C8: the installed global fetch mock is total and two-branched — every
URL containing `"api.smith.langchain"` gets a `Response` with status 429
(not the 502 the surrounding comments announce), status text
`"Bad Gateway"` and body `{"error":"Bad Gateway"}` (a retryable failure for
every collector send); every other URL makes the mock throw, so no call
reaches a real endpoint. -/
theorem C8_fetch_mock_two_branches (url : String) :
    (strIncludes url "api.smith.langchain" = true →
      fetchMock url
        = Except.ok ⟨429, "Bad Gateway", "\x7b\"error\":\"Bad Gateway\"\x7d"⟩ ∧
      isRetryableStatus 429 = true) ∧
    (strIncludes url "api.smith.langchain" = false →
      fetchMock url = Except.error "Should never happen") := by
  constructor
  · intro h
    refine ⟨?_, rfl⟩
    simp [fetchMock, h]
  · intro h
    simp [fetchMock, h]

/-- C8 (witness): the mock evaluated on a collector URL and on a foreign
URL. -/
theorem C8_fetch_mock_witness :
    fetchMock "https://api.smith.langchain.com/runs/multipart"
      = Except.ok ⟨429, "Bad Gateway", "\x7b\"error\":\"Bad Gateway\"\x7d"⟩ ∧
    fetchMock "https://example.com/health" = Except.error "Should never happen" :=
  ⟨((C8_fetch_mock_two_branches "https://api.smith.langchain.com/runs/multipart").1
      (by decide)).1,
   (C8_fetch_mock_two_branches "https://example.com/health").2 (by decide)⟩

/-- C7: producers never observe transport failures — the handler the harness
attaches to every `createRun` promise swallows every rejection, so the
handled promise always fulfils no matter the send outcome. -/
theorem C7_producer_never_observes_transport_failures :
    (∀ e : TransportError, handledRunPromise (Except.error e) = Except.ok ()) ∧
    ∀ outcome : Except TransportError Unit, (handledRunPromise outcome).isOk = true := by
  constructor
  · intro e
    rfl
  · intro o
    cases o <;> rfl

/-- C10: the harness's final verdict depends only on the two `heapUsed`
samples — it reports the memory-leak warning exactly when the heap grew by
more than 52428800 bytes (50 MB), reports normal growth otherwise, and is
unchanged under any trace count or queue size. -/
theorem C10_final_verdict_threshold (i f : Int) (tc qs tc2 qs2 : Nat) :
    (finalVerdict i f tc qs = "MEMORY LEAK DETECTED: Heap grew by more than 50MB"
      ↔ 52428800 < f - i) ∧
    (finalVerdict i f tc qs = "MEMORY LEAK DETECTED: Heap grew by more than 50MB"
      ∨ finalVerdict i f tc qs = "Memory growth appears normal") ∧
    finalVerdict i f tc qs = finalVerdict i f tc2 qs2 := by
  refine ⟨?_, ?_, rfl⟩
  · unfold finalVerdict
    split
    case isTrue h => exact ⟨fun _ => by omega, fun _ => rfl⟩
    case isFalse h =>
      constructor
      · intro hmsg
        exact absurd hmsg (by decide)
      · intro hlt
        exact absurd (by omega : (50:Int) * 1024 * 1024 < f - i) h
  · unfold finalVerdict
    split
    · exact Or.inl rfl
    · exact Or.inr rfl

/-- C10 (witness): the verdict evaluated at heap growth of 100 MB and of
1000 bytes. -/
theorem C10_final_verdict_witness :
    finalVerdict 0 104857600 5 7 = "MEMORY LEAK DETECTED: Heap grew by more than 50MB" ∧
    finalVerdict 0 1000 5 7 = "Memory growth appears normal" :=
  ⟨(C10_final_verdict_threshold 0 104857600 5 7 1 2).1.mpr (by omega),
   ((C10_final_verdict_threshold 0 1000 5 7 1 2).2.1).resolve_left (by decide)⟩

end LangsmithHarness

namespace IngestEngine

/-- C1: in every reachable engine state the bytes resident in the Record
Buffer plus those of all in-flight Batches never exceed `maxQueueBytes`;
and an enqueue that would push past the cap is rejected under the `reject`
policy, blocked (state unchanged) under the `block` policy, and under
`dropOldest` either displaces oldest records (the new buffer is a suffix of
the old one followed by the new record) or is rejected. -/
theorem C1_byte_cap_invariant_and_policy {cfg : Config} {s : EngineState}
    (h : Reachable cfg s) :
    totalBytes s ≤ cfg.maxQueueBytes ∧
    ∀ sz : Nat, cfg.maxQueueBytes < totalBytes s + sz →
      (cfg.queueFullPolicy = QueueFullPolicy.reject →
        enqueueOp cfg sz s = (s, EnqueueResult.rejected)) ∧
      (cfg.queueFullPolicy = QueueFullPolicy.block →
        enqueueOp cfg sz s = (s, EnqueueResult.blocked)) ∧
      (cfg.queueFullPolicy = QueueFullPolicy.dropOldest →
        enqueueOp cfg sz s = (s, EnqueueResult.rejected) ∨
        ∃ tail, tail <:+ s.buffer ∧
          (enqueueOp cfg sz s).1.buffer = tail ++ [⟨s.nextId, sz, 0⟩] ∧
          (enqueueOp cfg sz s).2 = EnqueueResult.accepted) := by
  refine ⟨(inv_of_reachable h).bytes, ?_⟩
  intro sz hover
  have hnot : ¬ (totalBytes s + sz ≤ cfg.maxQueueBytes) := by omega
  refine ⟨?_, ?_, ?_⟩
  · intro hp
    simp [enqueueOp, hnot, hp]
  · intro hp
    simp [enqueueOp, hnot, hp]
  · intro hp
    unfold enqueueOp
    rw [if_neg hnot, hp]
    simp only
    split
    · exact Or.inr ⟨_, dropOldestUntilFits_suffix _ _ _ _, rfl, rfl⟩
    · exact Or.inl rfl

/-- C1 (witness): the cap invariant at the start state, and an over-cap
enqueue of 101 bytes rejected under a 100-byte cap with the `reject`
policy. -/
theorem C1_byte_cap_witness :
    totalBytes initState ≤ 100 ∧
    enqueueOp ⟨100, 10, 50, 2, 0, 3, 1, 8, QueueFullPolicy.reject⟩ 101 initState
      = (initState, EnqueueResult.rejected) :=
  ⟨(@C1_byte_cap_invariant_and_policy
      ⟨100, 10, 50, 2, 0, 3, 1, 8, QueueFullPolicy.reject⟩ initState Reachable.init).1,
   ((@C1_byte_cap_invariant_and_policy
      ⟨100, 10, 50, 2, 0, 3, 1, 8, QueueFullPolicy.reject⟩ initState Reachable.init).2
      101 (by decide)).1 rfl⟩

/-- C3: in every reachable engine state all record identifiers across the
Record Buffer and the in-flight Batches are pairwise distinct; hence each
Record belongs to at most one Batch, no Record occurs in two concurrently
in-flight Batches, and no in-flight Record is simultaneously buffered. -/
theorem C3_record_in_at_most_one_batch {cfg : Config} {s : EngineState}
    (h : Reachable cfg s) :
    (allIds s).Nodup ∧
    List.Pairwise (fun b₁ b₂ => ∀ r₁ ∈ b₁, ∀ r₂ ∈ b₂, r₁.id ≠ r₂.id) s.inFlight ∧
    ∀ b ∈ s.inFlight, ∀ r ∈ b, r.id ∉ idsOf s.buffer := by
  have hnd := (inv_of_reachable h).nodup
  unfold allIds at hnd
  refine ⟨hnd, ?_, ?_⟩
  · have hJ : ((s.inFlight.map idsOf).flatten).Nodup := (List.nodup_append.mp hnd).2.1
    have hpw := (List.nodup_flatten.mp hJ).2
    have hpw2 := List.pairwise_map.mp hpw
    refine hpw2.imp ?_
    intro b₁ b₂ hdisj r₁ h₁ r₂ h₂ heq
    exact hdisj (List.mem_map_of_mem Record.id h₁)
      (heq ▸ List.mem_map_of_mem Record.id h₂)
  · intro b hb r hr hmem
    have hdisj := List.disjoint_of_nodup_append hnd
    refine hdisj hmem ?_
    rw [List.mem_flatten]
    exact ⟨idsOf b, List.mem_map_of_mem idsOf hb, List.mem_map_of_mem Record.id hr⟩

/-- C3 (witness): the no-duplication property at a reachable state holding
one record in an in-flight batch. -/
theorem C3_no_duplication_witness :
    (allIds (drainOp ⟨1000, 10, 100, 2, 0, 0, 1, 8, QueueFullPolicy.reject⟩
      (enqueueOp ⟨1000, 10, 100, 2, 0, 0, 1, 8, QueueFullPolicy.reject⟩ 10 initState).1)).Nodup ∧
    List.Pairwise (fun b₁ b₂ => ∀ r₁ ∈ b₁, ∀ r₂ ∈ b₂, r₁.id ≠ r₂.id)
      (drainOp ⟨1000, 10, 100, 2, 0, 0, 1, 8, QueueFullPolicy.reject⟩
        (enqueueOp ⟨1000, 10, 100, 2, 0, 0, 1, 8, QueueFullPolicy.reject⟩ 10 initState).1).inFlight ∧
    ∀ b ∈ (drainOp ⟨1000, 10, 100, 2, 0, 0, 1, 8, QueueFullPolicy.reject⟩
        (enqueueOp ⟨1000, 10, 100, 2, 0, 0, 1, 8, QueueFullPolicy.reject⟩ 10 initState).1).inFlight,
      ∀ r ∈ b, r.id ∉ idsOf (drainOp ⟨1000, 10, 100, 2, 0, 0, 1, 8, QueueFullPolicy.reject⟩
        (enqueueOp ⟨1000, 10, 100, 2, 0, 0, 1, 8, QueueFullPolicy.reject⟩ 10 initState).1).buffer :=
  C3_record_in_at_most_one_batch
    (Reachable.step (Reachable.step Reachable.init (Step.enqueue 10 initState))
      (Step.drain (enqueueOp ⟨1000, 10, 100, 2, 0, 0, 1, 8, QueueFullPolicy.reject⟩ 10 initState).1))

/-- C6: `takeUpTo(maxCount, maxBytes)` removes and returns a prefix of the
buffer — the returned batch followed by the remaining buffer is exactly the
original FIFO buffer — and across any trace of enqueues and batch
formations on a single buffer instance, the concatenation of the dispatched
batches in dispatch order followed by the remaining buffer equals the full
enqueue-order sequence of records, so batches are dispatched in FIFO
enqueue order with no cross-batch reordering. -/
theorem C6_takeUpTo_fifo_order :
    (∀ (n maxB : Nat) (l : List Record),
      (takeUpTo n maxB l).1 ++ (takeUpTo n maxB l).2 = l) ∧
    ∀ ops : List BufOp,
      ((runOps ops).dispatched).flatten ++ (runOps ops).buffer = enqueuedRecords ops := by
  refine ⟨takeUpTo_append, ?_⟩
  intro ops
  have h := (runOps_fold ops ⟨[], [], 0⟩).1
  simpa [runOps, enqueuedRecords] using h

end IngestEngine

namespace IngestEngine

/-- C2: cancellation of a transport resource handle is safe and idempotent
under the `unclaimed → in-use → closed` state tag: a second cancel after a
successful cancel never errors and releases nothing (no double release),
cancelling after the handle's operation completed is a no-op, cancelling an
already-closed resource is a no-op, and finalizing a resource still claimed
by another owner is the dual-ownership error. -/
theorem C2_cancel_idempotent_and_safe (caller : Nat) (s : RState) :
    (∀ (s' : RState) (rel : Bool), cancelOp caller s = Except.ok (s', rel) →
      cancelOp caller s' = Except.ok (s', false)) ∧
    (∀ owner : Nat, cancelOp caller (finishOp (RState.inUse owner))
      = Except.ok (RState.closed, false)) ∧
    cancelOp caller RState.closed = Except.ok (RState.closed, false) ∧
    (∀ owner : Nat, owner ≠ caller →
      cancelOp caller (RState.inUse owner)
        = Except.error CancelError.dualOwnershipViolation) := by
  refine ⟨?_, fun owner => rfl, rfl, ?_⟩
  · intro s' rel hok
    cases s with
    | closed =>
      simp only [cancelOp, Except.ok.injEq, Prod.mk.injEq] at hok
      obtain ⟨h1, -⟩ := hok
      subst h1
      rfl
    | unclaimed =>
      simp only [cancelOp, Except.ok.injEq, Prod.mk.injEq] at hok
      obtain ⟨h1, -⟩ := hok
      subst h1
      rfl
    | inUse owner =>
      by_cases howner : owner = caller
      · simp only [cancelOp, howner, if_true, Except.ok.injEq, Prod.mk.injEq] at hok
        obtain ⟨h1, -⟩ := hok
        subst h1
        rfl
      · have herr : cancelOp caller (RState.inUse owner)
            = Except.error CancelError.dualOwnershipViolation := by
          simp [cancelOp, howner]
        rw [herr] at hok
        exact Except.noConfusion hok
  · intro owner hne
    simp [cancelOp, hne]

/-- C2 (witness): cancel applied twice from an in-use resource, and a
dual-ownership cancel attempt by a non-owner. -/
theorem C2_cancel_witness :
    cancelOp 0 RState.closed = Except.ok (RState.closed, false) ∧
    cancelOp 0 (RState.inUse 1) = Except.error CancelError.dualOwnershipViolation :=
  ⟨(C2_cancel_idempotent_and_safe 0 (RState.inUse 0)).1 RState.closed true rfl,
   (C2_cancel_idempotent_and_safe 0 (RState.inUse 1)).2.2.2 1 (by decide)⟩

/-- C4: under sustained `RetryableFailure` outcomes (as the harness's mock
forces for every collector send), the Backpressure Controller's drain
concurrency converges to the floor 1 and its inter-attempt delay converges
to `backoffMaxMs`, and both stay there; a single `Success` resets the
consecutive-failure counter and the delay to `backoffBaseMs`, and
concurrency recovers to the configured `maxDrainConcurrency` within a
bounded number of success cycles. -/
theorem C4_backoff_convergence_and_recovery (cfg : Config) (threshold : Nat)
    (st : BackoffState) (hd : 1 ≤ st.delayMs) (hmax : 1 ≤ cfg.backoffMaxMs) :
    (∃ N, ∀ m : Nat,
      (sustainedFailures cfg threshold (N + m) st).concurrency = 1 ∧
      (sustainedFailures cfg threshold (N + m) st).delayMs = cfg.backoffMaxMs) ∧
    ∀ st' : BackoffState,
      (backoffStep cfg threshold st' SendOutcome.success).consecutiveFailures = 0 ∧
      (backoffStep cfg threshold st' SendOutcome.success).delayMs = cfg.backoffBaseMs ∧
      ∀ k : Nat, 1 ≤ k → cfg.maxDrainConcurrency ≤ k →
        (sustainedSuccesses cfg threshold k st').concurrency
          = cfg.maxDrainConcurrency := by
  constructor
  · have hcf1 := sustainedFailures_cf cfg threshold threshold st
    have hd1 := sustainedFailures_delay_pos cfg threshold hmax threshold st hd
    have hc1 := sustainedFailures_conc_le cfg threshold threshold st
    have hth1 : threshold
        ≤ (sustainedFailures cfg threshold threshold st).consecutiveFailures := by
      omega
    refine ⟨threshold + (max 1 st.concurrency + cfg.backoffMaxMs - 1 + 1), ?_⟩
    intro m
    have hsplit : sustainedFailures cfg threshold
        (threshold + (max 1 st.concurrency + cfg.backoffMaxMs - 1 + 1) + m) st
        = sustainedFailures cfg threshold m
            (sustainedFailures cfg threshold
              (max 1 st.concurrency + cfg.backoffMaxMs - 1 + 1)
              (sustainedFailures cfg threshold threshold st)) := by
      rw [show threshold + (max 1 st.concurrency + cfg.backoffMaxMs - 1 + 1) + m
        = threshold + ((max 1 st.concurrency + cfg.backoffMaxMs - 1 + 1) + m) by omega]
      rw [sustainedFailures_add, sustainedFailures_add]
    rw [hsplit]
    have hconc2 : (sustainedFailures cfg threshold
        (max 1 st.concurrency + cfg.backoffMaxMs - 1 + 1)
        (sustainedFailures cfg threshold threshold st)).concurrency = 1 := by
      refine sustainedFailures_conc_one cfg threshold _ _ hth1 ?_
      omega
    have hdel2 := sustainedFailures_delay_form cfg threshold
      (max 1 st.concurrency + cfg.backoffMaxMs - 1)
      (sustainedFailures cfg threshold threshold st) hth1
    have hpow : max 1 st.concurrency + cfg.backoffMaxMs - 1 + 1
        < 2 ^ (max 1 st.concurrency + cfg.backoffMaxMs - 1 + 1) :=
      Nat.lt_two_pow _
    have hmul : 2 ^ (max 1 st.concurrency + cfg.backoffMaxMs - 1 + 1)
        ≤ (sustainedFailures cfg threshold threshold st).delayMs
          * 2 ^ (max 1 st.concurrency + cfg.backoffMaxMs - 1 + 1) :=
      Nat.le_mul_of_pos_left _ hd1
    have hdel2max : (sustainedFailures cfg threshold
        (max 1 st.concurrency + cfg.backoffMaxMs - 1 + 1)
        (sustainedFailures cfg threshold threshold st)).delayMs = cfg.backoffMaxMs := by
      rw [hdel2]
      omega
    have hth2 : threshold ≤ (sustainedFailures cfg threshold
        (max 1 st.concurrency + cfg.backoffMaxMs - 1 + 1)
        (sustainedFailures cfg threshold threshold st)).consecutiveFailures := by
      rw [sustainedFailures_cf]
      omega
    exact sustainedFailures_fixed cfg threshold m _ hth2 hconc2 hdel2max
  · intro st'
    refine ⟨rfl, rfl, ?_⟩
    intro k hk1 hk2
    obtain ⟨j, rfl⟩ : ∃ j, k = j + 1 := ⟨k - 1, by omega⟩
    rw [sustainedSuccesses_conc]
    omega

/-- C4 (witness): the controller with defaults concurrency 4, base delay
1 ms, max delay 8 ms and threshold 2, started from concurrency 4, delay
100 ms. -/
theorem C4_backoff_witness :
    (∃ N, ∀ m : Nat,
      (sustainedFailures ⟨1000, 100, 100, 4, 0, 3, 1, 8, QueueFullPolicy.reject⟩ 2
        (N + m) ⟨4, 100, 0⟩).concurrency = 1 ∧
      (sustainedFailures ⟨1000, 100, 100, 4, 0, 3, 1, 8, QueueFullPolicy.reject⟩ 2
        (N + m) ⟨4, 100, 0⟩).delayMs = 8) ∧
    ∀ st' : BackoffState,
      (backoffStep ⟨1000, 100, 100, 4, 0, 3, 1, 8, QueueFullPolicy.reject⟩ 2 st'
        SendOutcome.success).consecutiveFailures = 0 ∧
      (backoffStep ⟨1000, 100, 100, 4, 0, 3, 1, 8, QueueFullPolicy.reject⟩ 2 st'
        SendOutcome.success).delayMs = 1 ∧
      ∀ k : Nat, 1 ≤ k → 4 ≤ k →
        (sustainedSuccesses ⟨1000, 100, 100, 4, 0, 3, 1, 8, QueueFullPolicy.reject⟩ 2
          k st').concurrency = 4 :=
  C4_backoff_convergence_and_recovery
    ⟨1000, 100, 100, 4, 0, 3, 1, 8, QueueFullPolicy.reject⟩ 2 ⟨4, 100, 0⟩
    (by decide) (by decide)

/-- C5: when an in-flight Batch resolves with `RetryableFailure`, its
non-exhausted Records are returned to the front of the Record Buffer with
their order preserved (retry counts bumped), and any Record whose retry
count would exceed `maxRetriesPerRecord` is discarded: its identifier is
absent from the resulting state and from every state reachable from it. -/
theorem C5_retryable_requeue_and_retry_exhaustion {cfg : Config} {s : EngineState}
    (h : Reachable cfg s) {i : Nat} {b : List Record}
    (hb : s.inFlight[i]? = some b) (reason : String) :
    (completeOp cfg i (SendOutcome.retryableFailure reason) s).buffer
      = bumpRetries cfg b ++ s.buffer ∧
    ∀ r ∈ b, cfg.maxRetriesPerRecord < r.retries + 1 →
      r.id ∉ allIds (completeOp cfg i (SendOutcome.retryableFailure reason) s) ∧
      ∀ s'' : EngineState,
        Relation.ReflTransGen (Step cfg)
          (completeOp cfg i (SendOutcome.retryableFailure reason) s) s'' →
        r.id ∉ allIds s'' := by
  have hinv := inv_of_reachable h
  have hsum := sum_map_eraseIdx listBytes s.inFlight i b hb
  have hbytes := hinv.bytes
  have hbuf_eq : (completeOp cfg i (SendOutcome.retryableFailure reason) s).buffer
      = bumpRetries cfg b ++ s.buffer := by
    rw [completeOp_retryable hb]
    show dropOldestUntilFits cfg.maxQueueBytes
      ((s.inFlight.eraseIdx i).map listBytes).sum 0 (bumpRetries cfg b ++ s.buffer)
      = bumpRetries cfg b ++ s.buffer
    apply dropOldestUntilFits_eq_self
    rw [listBytes_append]
    have hble := listBytes_bumpRetries_le cfg b
    simp only [totalBytes, inFlightBytes] at hbytes
    omega
  refine ⟨hbuf_eq, ?_⟩
  intro r hrb hex
  have hperm := flatten_map_eraseIdx_perm idsOf s.inFlight i b hb
  have hX : List.Perm (allIds s)
      (idsOf b ++ (idsOf s.buffer ++ ((s.inFlight.eraseIdx i).map idsOf).flatten)) := by
    unfold allIds
    rw [← Multiset.coe_eq_coe] at hperm ⊢
    simp only [← Multiset.coe_add] at hperm ⊢
    rw [← hperm]
    abel
  have hndX := hX.nodup_iff.mp hinv.nodup
  have hrid_b : r.id ∈ idsOf b := List.mem_map_of_mem Record.id hrb
  have hnd_b : (idsOf b).Nodup := (List.nodup_append.mp hndX).1
  have hdisj := List.disjoint_of_nodup_append hndX
  have hrid_rest :
      r.id ∉ idsOf s.buffer ++ ((s.inFlight.eraseIdx i).map idsOf).flatten :=
    fun hm => hdisj hrid_b hm
  have hrid_keep : r.id ∉ idsOf (bumpRetries cfg b) := by
    rw [idsOf_bumpRetries]
    intro hm
    obtain ⟨r', hr', hid⟩ := List.mem_map.mp hm
    obtain ⟨hr'b, hp⟩ := List.mem_filter.mp hr'
    have hreq : r' = r := List.inj_on_of_nodup_map hnd_b hr'b hrb hid
    subst hreq
    simp only [decide_eq_true_eq] at hp
    omega
  have hfl : (completeOp cfg i (SendOutcome.retryableFailure reason) s).inFlight
      = s.inFlight.eraseIdx i := by
    rw [completeOp_retryable hb]
  have hallIds2 : allIds (completeOp cfg i (SendOutcome.retryableFailure reason) s)
      = idsOf (bumpRetries cfg b) ++ idsOf s.buffer
        ++ ((s.inFlight.eraseIdx i).map idsOf).flatten := by
    unfold allIds
    rw [hbuf_eq, hfl, idsOf_append]
  have hnotin : r.id ∉ allIds (completeOp cfg i (SendOutcome.retryableFailure reason) s) := by
    rw [hallIds2]
    intro hm
    rcases List.mem_append.mp hm with hm1 | hm2
    · rcases List.mem_append.mp hm1 with hk | hbuf
      · exact hrid_keep hk
      · exact hrid_rest (List.mem_append.mpr (Or.inl hbuf))
    · exact hrid_rest (List.mem_append.mpr (Or.inr hm2))
  refine ⟨hnotin, ?_⟩
  intro s2 hsteps
  have hbmem : b ∈ s.inFlight := by
    obtain ⟨hlt2, hbe⟩ := List.getElem?_eq_some_iff.mp hb
    rw [← hbe]
    exact List.getElem_mem hlt2
  have hlt : r.id < (completeOp cfg i (SendOutcome.retryableFailure reason) s).nextId := by
    rw [completeOp_nextId]
    refine hinv.lt r.id ?_
    unfold allIds
    refine List.mem_append.mpr (Or.inr ?_)
    rw [List.mem_flatten]
    exact ⟨idsOf b, List.mem_map_of_mem idsOf hbmem, hrid_b⟩
  exact (fresh_of_steps hsteps hnotin hlt).1

/-- C5 (witness): a one-record batch failing retryably with
`maxRetriesPerRecord = 0`: the record is exhausted and its identifier
vanishes from the state. -/
theorem C5_retryable_requeue_witness :
    (completeOp ⟨1000, 10, 100, 2, 0, 0, 1, 8, QueueFullPolicy.reject⟩ 0
      (SendOutcome.retryableFailure "err")
      (drainOp ⟨1000, 10, 100, 2, 0, 0, 1, 8, QueueFullPolicy.reject⟩
        (enqueueOp ⟨1000, 10, 100, 2, 0, 0, 1, 8, QueueFullPolicy.reject⟩ 10
          initState).1)).buffer
      = bumpRetries ⟨1000, 10, 100, 2, 0, 0, 1, 8, QueueFullPolicy.reject⟩ [⟨0, 10, 0⟩]
        ++ (drainOp ⟨1000, 10, 100, 2, 0, 0, 1, 8, QueueFullPolicy.reject⟩
          (enqueueOp ⟨1000, 10, 100, 2, 0, 0, 1, 8, QueueFullPolicy.reject⟩ 10
            initState).1).buffer ∧
    Record.id ⟨0, 10, 0⟩
      ∉ allIds (completeOp ⟨1000, 10, 100, 2, 0, 0, 1, 8, QueueFullPolicy.reject⟩ 0
        (SendOutcome.retryableFailure "err")
        (drainOp ⟨1000, 10, 100, 2, 0, 0, 1, 8, QueueFullPolicy.reject⟩
          (enqueueOp ⟨1000, 10, 100, 2, 0, 0, 1, 8, QueueFullPolicy.reject⟩ 10
            initState).1)) :=
  ⟨(@C5_retryable_requeue_and_retry_exhaustion
      ⟨1000, 10, 100, 2, 0, 0, 1, 8, QueueFullPolicy.reject⟩
      (drainOp ⟨1000, 10, 100, 2, 0, 0, 1, 8, QueueFullPolicy.reject⟩
        (enqueueOp ⟨1000, 10, 100, 2, 0, 0, 1, 8, QueueFullPolicy.reject⟩ 10 initState).1)
      (Reachable.step (Reachable.step Reachable.init (Step.enqueue 10 initState))
        (Step.drain (enqueueOp ⟨1000, 10, 100, 2, 0, 0, 1, 8, QueueFullPolicy.reject⟩ 10
          initState).1))
      0 [⟨0, 10, 0⟩] (by decide) "err").1,
   ((@C5_retryable_requeue_and_retry_exhaustion
      ⟨1000, 10, 100, 2, 0, 0, 1, 8, QueueFullPolicy.reject⟩
      (drainOp ⟨1000, 10, 100, 2, 0, 0, 1, 8, QueueFullPolicy.reject⟩
        (enqueueOp ⟨1000, 10, 100, 2, 0, 0, 1, 8, QueueFullPolicy.reject⟩ 10 initState).1)
      (Reachable.step (Reachable.step Reachable.init (Step.enqueue 10 initState))
        (Step.drain (enqueueOp ⟨1000, 10, 100, 2, 0, 0, 1, 8, QueueFullPolicy.reject⟩ 10
          initState).1))
      0 [⟨0, 10, 0⟩] (by decide) "err").2 ⟨0, 10, 0⟩ (by decide) (by decide)).1⟩

end IngestEngine
